import Mathlib

/-!
Verification of the OpenSourceGuide.AI backend.

This file embeds the two nontrivial components of the repository:

* `parseGitHubUrl` — the GitHub URL parser/validator from
  `controllers/onboardingController.js` (modelled over `List Char`,
  a faithful representation of a JS string as a sequence of characters;
  the JS regexes are unfolded into their deterministic first-match
  semantics, which coincide with backtracking semantics here because the
  character class `[a-zA-Z0-9._-]` excludes `/`, so greedy runs never
  backtrack);
* `analyzeRepository` — the aggregation orchestrator, modelled as a pure
  function of the request body and of the settled outcomes of the five
  GitHub lookups and the four inference calls (`Promise.allSettled`
  outcomes become the `Settled` type);
* the `GroqService` constructor and `makeRequest` guard from
  `services/groqService.js`.
-/

/-! ## Character classes -/

/-- The character class `[a-zA-Z0-9._-]` used by every capture group of the
three GitHub URL regexes, and by `validNamePattern`. -/
def classChar (c : Char) : Bool :=
  ('a' ≤ c && c ≤ 'z') || ('A' ≤ c && c ≤ 'Z') || ('0' ≤ c && c ≤ '9') ||
  c = '.' || c = '_' || c = '-'

/-- JS `.` (dot, no `s` flag): any character except a LineTerminator
(`\n`, `\r`, U+2028, U+2029). -/
def dotAnyChar (c : Char) : Bool :=
  !(c = '\n' || c = '\r' || c = '\u2028' || c = '\u2029')

/-- The WhiteSpace ∪ LineTerminator set removed by JS `String.prototype.trim`. -/
def isJsWhitespace (c : Char) : Bool :=
  c = ' ' || c = '\t' || c = '\n' || c = '\r' || c = '\x0b' || c = '\x0c' ||
  c = '\u00a0' || c = '\u1680' || ('\u2000' ≤ c && c ≤ '\u200a') ||
  c = '\u2028' || c = '\u2029' || c = '\u202f' || c = '\u205f' ||
  c = '\u3000' || c = '\ufeff'

/-! ## Normalization (lines 12–22 of the controller) -/

/-- Model of `cleanUrl = repoUrl.trim()`. -/
def jsTrim (l : List Char) : List Char :=
  ((l.dropWhile isJsWhitespace).reverse.dropWhile isJsWhitespace).reverse

/-- JS `a.endsWith(b)` as a suffix test. -/
def endsWithL (l s : List Char) : Bool := s.isSuffixOf l

def gitSuffixChars : List Char := ['.', 'g', 'i', 't']

/-- Model of `if (cleanUrl.endsWith('.git')) cleanUrl = cleanUrl.slice(0, -4)`. -/
def stripDotGit (l : List Char) : List Char :=
  if endsWithL l gitSuffixChars then l.take (l.length - 4) else l

/-- Model of `if (cleanUrl.endsWith('/')) cleanUrl = cleanUrl.slice(0, -1)`. -/
def stripTrailingSlash (l : List Char) : List Char :=
  if endsWithL l ['/'] then l.take (l.length - 1) else l

/-- The full normalization pipeline applied before pattern matching. -/
def normalizeUrl (l : List Char) : List Char :=
  stripTrailingSlash (stripDotGit (jsTrim l))

/-! ## The three regex patterns -/

def httpsHostChars : List Char := "https://github.com/".toList

def httpHostChars : List Char := "http://github.com/".toList

def sshHostChars : List Char := "git@github.com:".toList

/-- The literal scheme-and-host part of
`/^https?:\/\/github\.com\/ ... /`: consume `https://github.com/` or
`http://github.com/` (the greedy `s?` tries `https` first; the two
alternatives cannot both match, so the order is immaterial). -/
def schemeSplit (l : List Char) : Option (List Char) :=
  if httpsHostChars.isPrefixOf l then some (l.drop 19)
  else if httpHostChars.isPrefixOf l then some (l.drop 18)
  else none

/-- The literal prefix of `/^git@github\.com: ... /`. -/
def sshSplit (l : List Char) : Option (List Char) :=
  if sshHostChars.isPrefixOf l then some (l.drop 15) else none

/-- Tail `([a-zA-Z0-9._-]+)\/([a-zA-Z0-9._-]+)(?:\/.*)?$` — the owner/repo tail of
the HTTPS pattern.  Because the class excludes `/`, the greedy captures are
the maximal class-character runs and backtracking never changes them; the
optional `(?:\/.*)?$` requires either end-of-input right after the repo run,
or a `/` followed only by non-LineTerminator characters. -/
def matchOwnerRepoPath (l : List Char) : Option (List Char × List Char) :=
  let owner := l.takeWhile classChar
  match l.dropWhile classChar with
  | '/' :: rest2 =>
    let repo := rest2.takeWhile classChar
    if owner.isEmpty || repo.isEmpty then none
    else
      match rest2.dropWhile classChar with
      | [] => some (owner, repo)
      | '/' :: tail => if tail.all dotAnyChar then some (owner, repo) else none
      | _ => none
  | _ => none

/-- Tails `([a-zA-Z0-9._-]+)\/([a-zA-Z0-9._-]+)(?:\.git)?$` and
`([a-zA-Z0-9._-]+)\/([a-zA-Z0-9._-]+)$` — the owner/repo-to-end tails of the
SSH and bare patterns.  The `(?:\.git)?` of the SSH pattern is inert: `.` and
the letters of `git` are inside the capture class, so the greedy repo capture
always swallows a trailing `.git` and the optional group matches empty. -/
def matchOwnerRepoEnd (l : List Char) : Option (List Char × List Char) :=
  let owner := l.takeWhile classChar
  match l.dropWhile classChar with
  | '/' :: rest2 =>
    let repo := rest2.takeWhile classChar
    if owner.isEmpty || repo.isEmpty then none
    else if (rest2.dropWhile classChar).isEmpty then some (owner, repo) else none
  | _ => none

/-- Pattern 1 of `githubPatterns`: standard HTTPS URLs. -/
def matchHttpsUrl (l : List Char) : Option (List Char × List Char) :=
  match schemeSplit l with
  | some rest => matchOwnerRepoPath rest
  | none => none

/-- Pattern 2 of `githubPatterns`: SSH URLs. -/
def matchSshUrl (l : List Char) : Option (List Char × List Char) :=
  match sshSplit l with
  | some rest => matchOwnerRepoEnd rest
  | none => none

/-- Pattern 3 of `githubPatterns`: bare `owner/repo`. -/
def matchBareForm (l : List Char) : Option (List Char × List Char) :=
  matchOwnerRepoEnd l

/-- The `for (const pattern of githubPatterns)` loop: first matching pattern
wins; once a pattern matches, the loop body returns (validation included)
without trying later patterns. -/
def matchFirstForm (l : List Char) : Option (List Char × List Char) :=
  match matchHttpsUrl l with
  | some p => some p
  | none =>
    match matchSshUrl l with
    | some p => some p
    | none => matchBareForm l

/-! ## Validation and the parser -/

/-- Identifier `{ owner, repo }` returned by the parser (the spec calls the second field
`name`). -/
structure RepositoryIdentifier where
  owner : List Char
  repo : List Char
deriving DecidableEq, Repr

/-- Model of `validNamePattern = /^[a-zA-Z0-9._-]+$/` applied via `.test`. -/
def validNameTest (n : List Char) : Bool :=
  !n.isEmpty && n.all classChar

/-- Model of `owner.startsWith('.') || owner.startsWith('-')` for a single name. -/
def startsWithDotOrDash (n : List Char) : Bool :=
  match n with
  | c :: _ => c = '.' || c = '-'
  | [] => false

/-- Lines 39–51 of the controller: validate the captured pair and build the
identifier (returning `none` aborts the whole parse; the loop does not move
on to later patterns). -/
def validateOwnerRepo (o r : List Char) : Option RepositoryIdentifier :=
  if !validNameTest o || !validNameTest r then none
  else if startsWithDotOrDash o || startsWithDotOrDash r then none
  else some ⟨o, r⟩

/-- Function `parseGitHubUrl` (controller lines 9–61).  The surrounding `try/catch`
cannot fire in this model: every operation on the character list is total,
so the function is total by construction, matching the code's contract of
returning an identifier or `null` and never throwing. -/
def parseGitHubUrl (raw : List Char) : Option RepositoryIdentifier :=
  match matchFirstForm (normalizeUrl raw) with
  | some (o, r) => validateOwnerRepo o r
  | none => none

example : parseGitHubUrl "https://github.com/facebook/react/issues/123".toList =
    some ⟨"facebook".toList, "react".toList⟩ := by decide

example : parseGitHubUrl "git@github.com:vuejs/vue.git".toList =
    some ⟨"vuejs".toList, "vue".toList⟩ := by decide

example : parseGitHubUrl "owner/repo".toList = some ⟨"owner".toList, "repo".toList⟩ := by
  decide

example : parseGitHubUrl "not a url".toList = none := by decide

example : parseGitHubUrl "  https://github.com/a/b.git  ".toList =
    some ⟨"a".toList, "b".toList⟩ := by decide

example : parseGitHubUrl "https://github.com/a/b.git/x".toList =
    some ⟨"a".toList, "b.git".toList⟩ := by decide

example : parseGitHubUrl "a/b.git.git".toList = some ⟨"a".toList, "b.git".toList⟩ := by
  decide

example : parseGitHubUrl "https://github.com/.a/b".toList = none := by decide

/-! ## The aggregation orchestrator (`analyzeRepository`, controller lines 68–192)

`Promise.allSettled` outcomes are modelled by `Settled`; a rejection carries
the `.message` string of the rejection reason.  The orchestrator is a pure
function of the request body, the five settled GitHub lookups, the four
settled inference calls, and the presence flags of the two credentials. -/

/-- One settled promise: `{status:'fulfilled', value}` or
`{status:'rejected', reason}` (only `reason.message` is ever read). -/
inductive Settled (α : Type) where
  | fulfilled : α → Settled α
  | rejected : String → Settled α
deriving DecidableEq, Repr

/-- The fields of the GitHub metadata object that the orchestrator reads when
building the response. -/
structure RepoMetadata where
  name : String
  full_name : String
  description : String
  html_url : String
deriving DecidableEq, Repr

/-- Issue objects are opaque to the orchestrator (it only counts them), so an
issue is modelled by an identifier. -/
abbrev GitHubIssue := Nat

/-- The settled outcomes of the five parallel GitHub lookups
(controller lines 94–100).  A file read resolves to the decoded text or to
`null` (`getFileContent` returns `string | null`). -/
structure FetchResults where
  repoData : Settled RepoMetadata
  issues : Settled (List GitHubIssue)
  readme : Settled (Option String)
  contributing : Settled (Option String)
  codeOfConduct : Settled (Option String)
deriving DecidableEq, Repr

/-- The settled outcomes of the four parallel inference calls
(controller lines 141–146). -/
structure InferResults where
  whereToStart : Settled String
  whatNeedsImproving : Settled String
  contributionRules : Settled String
  projectOverview : Settled String
deriving DecidableEq, Repr

/-- The `context` object built at controller lines 131–137. -/
structure AnalysisContext where
  repo : RepoMetadata
  issues : List GitHubIssue
  readme : Option String
  contributing : Option String
  codeOfConduct : Option String
deriving DecidableEq, Repr

/-- Controller lines 131–137: every optional lookup degrades to its default
(`[]` for issues, `null` for each file) when rejected. -/
def buildContext (meta : RepoMetadata) (f : FetchResults) : AnalysisContext :=
  { repo := meta
    issues := match f.issues with
      | .fulfilled v => v
      | .rejected _ => []
    readme := match f.readme with
      | .fulfilled v => v
      | .rejected _ => none
    contributing := match f.contributing with
      | .fulfilled v => v
      | .rejected _ => none
    codeOfConduct := match f.codeOfConduct with
      | .fulfilled v => v
      | .rejected _ => none }

/-- The `repoUrl` field of the JSON request body: absent, present but not a
string, or a string. -/
inductive BodyValue where
  | missing
  | nonString
  | str : String → BodyValue
deriving DecidableEq, Repr

/-- The guard `!repoUrl || typeof repoUrl !== 'string'` (controller line 73).
`missing` gives `undefined` (falsy and not a string); a non-string value
fails the `typeof` test regardless of truthiness; a string value fails the
guard exactly when it is falsy, i.e. the empty string. -/
def invalidInputCheck : BodyValue → Bool
  | .missing => true
  | .nonString => true
  | .str s => s.isEmpty

/-! ### Response model -/

/-- Field `metadata.apiStatus` of the success payload (controller lines 168–171). -/
structure ApiStatusFlags where
  github : String
  groq : String
deriving DecidableEq, Repr

/-- Field `metadata` of the success payload (controller lines 162–172;
`analyzedAt` is a wall-clock timestamp and is omitted). -/
structure ResponseMetadata where
  issuesFound : Nat
  hasReadme : Bool
  hasContributing : Bool
  hasCodeOfConduct : Bool
  apiStatus : ApiStatusFlags
deriving DecidableEq, Repr

/-- Field `repository` of the success payload (controller lines 150–155). -/
structure RepositorySummary where
  name : String
  fullName : String
  description : String
  url : String
deriving DecidableEq, Repr

/-- Field `analysis` of the success payload (controller lines 156–161). -/
structure AnalysisFields where
  whereToStart : String
  whatNeedsImproving : String
  contributionRules : String
  projectOverview : String
deriving DecidableEq, Repr

/-- The success payload assembled at controller lines 149–173. -/
structure ResponsePayload where
  repository : RepositorySummary
  analysis : AnalysisFields
  metadata : ResponseMetadata
deriving DecidableEq, Repr

/-- A JSON response body: `{error, message}` or the success payload. -/
inductive ApiBody where
  | errorBody (error : String) (message : String)
  | jsonBody (payload : ResponsePayload)
deriving DecidableEq, Repr

/-- An HTTP response: status code plus JSON body (`res.json` without an
explicit status sends 200). -/
structure HttpResponse where
  status : Nat
  body : ApiBody
deriving DecidableEq, Repr

/-- JS `message.includes(sub)`. -/
def containsSub (sub s : String) : Bool :=
  s.toList.tails.any (fun t => sub.toList.isPrefixOf t)

/-- The four fixed fallback strings of controller lines 157–160. -/
def fallbackWhereToStart : String :=
  "Unable to analyze beginner-friendly opportunities at this time."

def fallbackWhatNeedsImproving : String :=
  "Unable to identify improvement areas at this time."

def fallbackContributionRules : String :=
  "Unable to summarize contribution guidelines at this time."

def fallbackProjectOverview : String :=
  "Unable to generate project overview at this time."

/-- Model of `result.status === 'fulfilled' ? result.value : fallback`. -/
def settledOrElse (s : Settled String) (fb : String) : String :=
  match s with
  | .fulfilled v => v
  | .rejected _ => fb

/-- JS `!!x` for a `string | null` value: `null` and the empty string are
falsy (controller lines 165–167). -/
def truthyStrOpt : Option String → Bool
  | some s => !s.isEmpty
  | none => false

/-- Controller lines 103–128: classify a rejected metadata lookup by
substring of the rejection message, in order. -/
def classifyMetadataFailure (id : RepositoryIdentifier) (msg : String) : HttpResponse :=
  if containsSub "Resource not found" msg then
    ⟨404, .errorBody "Repository not found"
      ("The repository \x27" ++ String.mk id.owner ++ "/" ++ String.mk id.repo ++
       "\x27 was not found. Please check that the repository exists and is publicly accessible.")⟩
  else if containsSub "rate limit" msg then
    ⟨429, .errorBody "Rate limit exceeded"
      "GitHub API rate limit exceeded. Please try again later or configure a GitHub token for higher limits."⟩
  else if containsSub "authentication" msg then
    ⟨401, .errorBody "Authentication failed"
      "GitHub API authentication failed. Please check your GitHub token configuration."⟩
  else
    ⟨500, .errorBody "GitHub API error"
      "Could not fetch repository information. Please try again later."⟩

/-- The 400 response of controller lines 74–78. -/
def invalidInputResponse : HttpResponse :=
  ⟨400, .errorBody "Invalid request" "repoUrl is required and must be a string"⟩

/-- The 400 response of controller lines 83–87. -/
def invalidUrlResponse : HttpResponse :=
  ⟨400, .errorBody "Invalid GitHub URL"
    "Please provide a valid GitHub repository URL (e.g., https://github.com/owner/repo, git@github.com:owner/repo.git, or owner/repo)"⟩

/-- Controller lines 130–183: the part of the handler after the metadata
lookup succeeded — build the context and assemble the 200 payload. -/
def buildSuccessResponse (meta : RepoMetadata) (f : FetchResults) (inf : InferResults)
    (githubTokenSet groqKeySet : Bool) : HttpResponse :=
  let context := buildContext meta f
  ⟨200, .jsonBody
    { repository := ⟨meta.name, meta.full_name, meta.description, meta.html_url⟩
      analysis :=
        ⟨settledOrElse inf.whereToStart fallbackWhereToStart,
         settledOrElse inf.whatNeedsImproving fallbackWhatNeedsImproving,
         settledOrElse inf.contributionRules fallbackContributionRules,
         settledOrElse inf.projectOverview fallbackProjectOverview⟩
      metadata :=
        ⟨context.issues.length,
         truthyStrOpt context.readme,
         truthyStrOpt context.contributing,
         truthyStrOpt context.codeOfConduct,
         ⟨(if githubTokenSet then "Authenticated" else "Unauthenticated"),
          (if groqKeySet then "Active" else "Inactive")⟩⟩ }⟩

/-- Handler `analyzeRepository` (controller lines 68–192) as a pure function of the
request body, the settled lookup outcomes, the settled inference outcomes and
the credential presence flags. -/
def analyzeRepository (body : BodyValue) (f : FetchResults) (inf : InferResults)
    (githubTokenSet groqKeySet : Bool) : HttpResponse :=
  if invalidInputCheck body then invalidInputResponse
  else
    match body with
    | .str s =>
      match parseGitHubUrl s.toList with
      | none => invalidUrlResponse
      | some id =>
        match f.repoData with
        | .rejected msg => classifyMetadataFailure id msg
        | .fulfilled meta => buildSuccessResponse meta f inf githubTokenSet groqKeySet
    | _ => invalidInputResponse

/-! ## The inference service (`GroqService`, groqService.js) -/

/-- The instance state built by the `GroqService` constructor that
`makeRequest` reads. -/
structure GroqState where
  apiKey : Option String
  authHeader : String
deriving DecidableEq, Repr

/-- JS template-literal interpolation of a possibly-`undefined` value:
`undefined` stringifies to `"undefined"`. -/
def jsInterpolate : Option String → String
  | some s => s
  | none => "undefined"

/-- The `GroqService` constructor (groqService.js lines 136–162).  The field
`this.apiKey` is never assigned — the hardcoded assignment is commented
out — so the `Authorization` header is built from `undefined`; the
environment variable is only consulted for a console warning. -/
def groqInit (envKey : Option String) : GroqState :=
  let apiKey : Option String := none
  { apiKey := apiKey
    authHeader := "Bearer " ++ jsInterpolate apiKey }

/-- What `GroqService.makeRequest` does before any network activity. -/
inductive GroqSendOutcome where
  | thrown (msg : String)
  | sent (authHeader : String)
deriving DecidableEq, Repr

def groqKeyMissingMsg : String :=
  "Groq API key is not configured. Please set GROQ_API_KEY environment variable."

/-- Model of `GroqService.makeRequest` (groqService.js lines 190–216): throw before
sending when `GROQ_API_KEY` is absent from the environment; otherwise send
the request with the constructor-built headers. -/
def groqMakeRequest (envKey : Option String) (st : GroqState) : GroqSendOutcome :=
  if envKey.isNone then .thrown groqKeyMissingMsg
  else .sent st.authHeader

/-- The guard of `groqMakeRequest` seen from the orchestrator: with the key
absent every inference call rejects (with the guard's message) before
reaching the upstream service; with the key present the upstream outcome is
whatever the service returns. -/
def gateInference (groqKeySet : Bool) (upstream : Settled String) : Settled String :=
  if groqKeySet then upstream else .rejected groqKeyMissingMsg

/-- A whole request run: the four inference outcomes pass through the
`GROQ_API_KEY` guard of `GroqService.makeRequest` before the orchestrator
settles them. -/
def runRequest (body : BodyValue) (f : FetchResults) (up : InferResults)
    (githubTokenSet groqKeySet : Bool) : HttpResponse :=
  analyzeRepository body f
    ⟨gateInference groqKeySet up.whereToStart,
     gateInference groqKeySet up.whatNeedsImproving,
     gateInference groqKeySet up.contributionRules,
     gateInference groqKeySet up.projectOverview⟩
    githubTokenSet groqKeySet

/-! ### Response accessors used by the claims -/

/-- The `error` tag of an error body, if any. -/
def errTagOf (r : HttpResponse) : Option String :=
  match r.body with
  | .errorBody e _ => some e
  | .jsonBody _ => none

/-- The `analysis` object of a success payload, if any. -/
def analysisOf (r : HttpResponse) : Option AnalysisFields :=
  match r.body with
  | .jsonBody p => some p.analysis
  | .errorBody _ _ => none

/-- Blank out the informational `apiStatus` flags of a success payload. -/
def stripApiFlags (r : HttpResponse) : HttpResponse :=
  match r.body with
  | .jsonBody p =>
    ⟨r.status, .jsonBody { p with metadata := { p.metadata with apiStatus := ⟨"", ""⟩ } }⟩
  | b => ⟨r.status, b⟩

/-- Blank out the four analysis fields of a success payload. -/
def stripAnalysisFields (r : HttpResponse) : HttpResponse :=
  match r.body with
  | .jsonBody p => ⟨r.status, .jsonBody { p with analysis := ⟨"", "", "", ""⟩ }⟩
  | b => ⟨r.status, b⟩

/-- All four analysis fields of the payload (when there is one) are the
fixed fallback strings. -/
def analysisAllFallbacks (r : HttpResponse) : Bool :=
  match analysisOf r with
  | some a =>
    decide (a = ⟨fallbackWhereToStart, fallbackWhatNeedsImproving,
                 fallbackContributionRules, fallbackProjectOverview⟩)
  | none => true

/-! ## Sample values used by witnesses and counterexamples -/

def wMeta : RepoMetadata :=
  ⟨"react", "facebook/react", "A declarative UI library",
   "https://github.com/facebook/react"⟩

/-- Metadata lookup rejected with the message `GitHubService.makeRequest`
produces for an upstream 404. -/
def wMetaRejectedFetch : FetchResults :=
  ⟨.rejected "Resource not found: /repos/facebook/react",
   .rejected "a", .rejected "b", .rejected "c", .rejected "d"⟩

/-- Metadata fulfilled, every optional lookup fulfilled. -/
def wFulfilledFetch : FetchResults :=
  ⟨.fulfilled wMeta, .fulfilled [1, 2], .fulfilled (some "readme text"),
   .fulfilled (some "contributing text"), .fulfilled (some "conduct text")⟩

/-- Metadata fulfilled, exactly one optional lookup (the README read)
fulfilled, the other three rejected. -/
def wOneSuccessFetch : FetchResults :=
  ⟨.fulfilled wMeta, .rejected "a", .fulfilled (some "README"),
   .rejected "b", .rejected "c"⟩

def wInferAllRejected : InferResults :=
  ⟨.rejected "boom1", .rejected "boom2", .rejected "boom3", .rejected "boom4"⟩

def wInferAllFulfilled : InferResults :=
  ⟨.fulfilled "start text", .fulfilled "improve text",
   .fulfilled "rules text", .fulfilled "overview text"⟩

/-- Metadata lookup rejected with a message that contains `"not found"` but
not `"Resource not found"`. -/
def cexNotFoundFetch : FetchResults :=
  ⟨.rejected "repository not found", .rejected "a", .rejected "b",
   .rejected "c", .rejected "d"⟩

/-! ## Claim C1 -/

/-- C1 (amended): when the mandatory metadata lookup is rejected, the
orchestrator classifies the rejection by substring of the upstream error
message, testing the three substrings in order: a message containing
`"Resource not found"` yields 404 `Repository not found`; otherwise one
containing `"rate limit"` yields 429 `Rate limit exceeded`; otherwise one
containing `"authentication"` yields 401 `Authentication failed`; any other
message yields 500 `GitHub API error`.  The response is the same regardless
of the outcomes of the other four lookups and of the inference calls. -/
theorem c1_metadata_failure_classification
    (s : String) (f : FetchResults) (inf : InferResults) (g q : Bool)
    (id : RepositoryIdentifier) (msg : String)
    (hs : s.isEmpty = false)
    (hp : parseGitHubUrl s.toList = some id)
    (hm : f.repoData = Settled.rejected msg) :
    (containsSub "Resource not found" msg = true →
      (analyzeRepository (.str s) f inf g q).status = 404 ∧
      errTagOf (analyzeRepository (.str s) f inf g q) = some "Repository not found") ∧
    (containsSub "Resource not found" msg = false →
      containsSub "rate limit" msg = true →
      (analyzeRepository (.str s) f inf g q).status = 429 ∧
      errTagOf (analyzeRepository (.str s) f inf g q) = some "Rate limit exceeded") ∧
    (containsSub "Resource not found" msg = false →
      containsSub "rate limit" msg = false →
      containsSub "authentication" msg = true →
      (analyzeRepository (.str s) f inf g q).status = 401 ∧
      errTagOf (analyzeRepository (.str s) f inf g q) = some "Authentication failed") ∧
    (containsSub "Resource not found" msg = false →
      containsSub "rate limit" msg = false →
      containsSub "authentication" msg = false →
      (analyzeRepository (.str s) f inf g q).status = 500 ∧
      errTagOf (analyzeRepository (.str s) f inf g q) = some "GitHub API error") := by
  have hp' : parseGitHubUrl s.data = some id := hp
  have hrun : analyzeRepository (.str s) f inf g q = classifyMetadataFailure id msg := by
    simp [analyzeRepository, invalidInputCheck, hs, hp', hm]
  rw [hrun]
  refine ⟨?_, ?_, ?_, ?_⟩ <;> intros <;>
    simp [classifyMetadataFailure, errTagOf, *]

theorem c1_metadata_failure_classification_witness :
    (analyzeRepository (.str "facebook/react") wMetaRejectedFetch wInferAllRejected
        true true).status = 404 ∧
    errTagOf (analyzeRepository (.str "facebook/react") wMetaRejectedFetch wInferAllRejected
        true true) = some "Repository not found" :=
  (c1_metadata_failure_classification "facebook/react" wMetaRejectedFetch wInferAllRejected
    true true ⟨"facebook".toList, "react".toList⟩
    "Resource not found: /repos/facebook/react"
    (by decide) (by decide) rfl).1 (by decide)

/-- C1 as stated is false: the code matches the substring
`"Resource not found"`, not `"not found"` — a rejection message that contains
`"not found"` without `"Resource not found"` falls through to the generic
500 `GitHub API error` response instead of the claimed 404. -/
theorem c1_claim_counterexample :
    containsSub "not found" "repository not found" = true ∧
    (analyzeRepository (.str "a/b") cexNotFoundFetch wInferAllRejected true true).status = 500 ∧
    errTagOf (analyzeRepository (.str "a/b") cexNotFoundFetch wInferAllRejected true true) =
      some "GitHub API error" := by
  decide

/-! ## Claim C2 -/

/-- C2: when the metadata lookup succeeds, the request completes with
status 200, and each of the four optional lookups is reflected in the built
`AnalysisContext` as its value when fulfilled and as its degraded default
(`[]` for issues, absent for each file) when rejected. -/
theorem c2_optional_lookup_degradation
    (s : String) (f : FetchResults) (inf : InferResults) (g q : Bool)
    (meta : RepoMetadata) (id : RepositoryIdentifier)
    (hs : s.isEmpty = false)
    (hp : parseGitHubUrl s.toList = some id)
    (hm : f.repoData = Settled.fulfilled meta) :
    (analyzeRepository (.str s) f inf g q).status = 200 ∧
    (buildContext meta f).repo = meta ∧
    (∀ e, f.issues = .rejected e → (buildContext meta f).issues = []) ∧
    (∀ v, f.issues = .fulfilled v → (buildContext meta f).issues = v) ∧
    (∀ e, f.readme = .rejected e → (buildContext meta f).readme = none) ∧
    (∀ v, f.readme = .fulfilled v → (buildContext meta f).readme = v) ∧
    (∀ e, f.contributing = .rejected e → (buildContext meta f).contributing = none) ∧
    (∀ v, f.contributing = .fulfilled v → (buildContext meta f).contributing = v) ∧
    (∀ e, f.codeOfConduct = .rejected e → (buildContext meta f).codeOfConduct = none) ∧
    (∀ v, f.codeOfConduct = .fulfilled v → (buildContext meta f).codeOfConduct = v) := by
  have hp' : parseGitHubUrl s.data = some id := hp
  refine ⟨?_, rfl, ?_, ?_, ?_, ?_, ?_, ?_, ?_, ?_⟩
  · simp [analyzeRepository, invalidInputCheck, hs, hp', hm, buildSuccessResponse]
  all_goals intro x hx
  all_goals simp [buildContext, hx]

theorem c2_optional_lookup_degradation_witness :
    (analyzeRepository (.str "facebook/react") wOneSuccessFetch wInferAllRejected
        true true).status = 200 ∧
    (buildContext wMeta wOneSuccessFetch).issues = [] ∧
    (buildContext wMeta wOneSuccessFetch).readme = some "README" ∧
    (buildContext wMeta wOneSuccessFetch).contributing = none ∧
    (buildContext wMeta wOneSuccessFetch).codeOfConduct = none := by
  have h := c2_optional_lookup_degradation "facebook/react" wOneSuccessFetch
    wInferAllRejected true true wMeta ⟨"facebook".toList, "react".toList⟩
    (by decide) (by decide) rfl
  exact ⟨h.1, h.2.2.1 "a" rfl, h.2.2.2.2.2.1 (some "README") rfl,
    h.2.2.2.2.2.2.1 "b" rfl, h.2.2.2.2.2.2.2.2.1 "c" rfl⟩

/-! ## Claim C3 -/

/-- C3: once the metadata lookup has succeeded, the response has status 200
whatever the four inference outcomes are, and each analysis field is the
inference output when fulfilled and the fixed per-type fallback string when
rejected. -/
theorem c3_inference_fallbacks
    (s : String) (f : FetchResults) (inf : InferResults) (g q : Bool)
    (meta : RepoMetadata) (id : RepositoryIdentifier)
    (hs : s.isEmpty = false)
    (hp : parseGitHubUrl s.toList = some id)
    (hm : f.repoData = Settled.fulfilled meta) :
    (analyzeRepository (.str s) f inf g q).status = 200 ∧
    ∃ a, analysisOf (analyzeRepository (.str s) f inf g q) = some a ∧
      (∀ e, inf.whereToStart = .rejected e → a.whereToStart = fallbackWhereToStart) ∧
      (∀ v, inf.whereToStart = .fulfilled v → a.whereToStart = v) ∧
      (∀ e, inf.whatNeedsImproving = .rejected e →
        a.whatNeedsImproving = fallbackWhatNeedsImproving) ∧
      (∀ v, inf.whatNeedsImproving = .fulfilled v → a.whatNeedsImproving = v) ∧
      (∀ e, inf.contributionRules = .rejected e →
        a.contributionRules = fallbackContributionRules) ∧
      (∀ v, inf.contributionRules = .fulfilled v → a.contributionRules = v) ∧
      (∀ e, inf.projectOverview = .rejected e →
        a.projectOverview = fallbackProjectOverview) ∧
      (∀ v, inf.projectOverview = .fulfilled v → a.projectOverview = v) := by
  have hp' : parseGitHubUrl s.data = some id := hp
  have hrun : analyzeRepository (.str s) f inf g q =
      buildSuccessResponse meta f inf g q := by
    simp [analyzeRepository, invalidInputCheck, hs, hp', hm]
  rw [hrun]
  refine ⟨rfl, ⟨_, rfl, ?_, ?_, ?_, ?_, ?_, ?_, ?_, ?_⟩⟩
  all_goals intro x hx
  all_goals simp [settledOrElse, hx]

theorem c3_inference_fallbacks_witness :
    (analyzeRepository (.str "facebook/react") wFulfilledFetch wInferAllRejected
        true true).status = 200 ∧
    analysisOf (analyzeRepository (.str "facebook/react") wFulfilledFetch wInferAllRejected
        true true) =
      some ⟨fallbackWhereToStart, fallbackWhatNeedsImproving,
            fallbackContributionRules, fallbackProjectOverview⟩ := by
  obtain ⟨hst, a, ha, r1, -, r2, -, r3, -, r4, -⟩ :=
    c3_inference_fallbacks "facebook/react" wFulfilledFetch wInferAllRejected
      true true wMeta ⟨"facebook".toList, "react".toList⟩
      (by decide) (by decide) rfl
  refine ⟨hst, ?_⟩
  have e1 := r1 "boom1" rfl
  have e2 := r2 "boom2" rfl
  have e3 := r3 "boom3" rfl
  have e4 := r4 "boom4" rfl
  rw [ha]
  cases a
  simp_all

/-! ## Claim C4 -/

/-- Statuses produced by the metadata-failure classifier are never 400, so a
classified failure can never be confused with the two validation errors. -/
theorem classify_status_ne_400 (id : RepositoryIdentifier) (msg : String) :
    (classifyMetadataFailure id msg).status ≠ 400 := by
  unfold classifyMetadataFailure
  split_ifs <;> simp

/-- The classifier always produces an error body, never a success payload. -/
theorem classify_analysisOf (id : RepositoryIdentifier) (msg : String) :
    analysisOf (classifyMetadataFailure id msg) = none := by
  unfold classifyMetadataFailure
  split_ifs <;> rfl

/-- Error tags produced by the metadata-failure classifier are distinct from
the two validation-error tags. -/
theorem classify_errTag_ne (id : RepositoryIdentifier) (msg : String) :
    errTagOf (classifyMetadataFailure id msg) ≠ some "Invalid request" ∧
    errTagOf (classifyMetadataFailure id msg) ≠ some "Invalid GitHub URL" := by
  unfold classifyMetadataFailure
  split_ifs <;> exact ⟨by simp [errTagOf], by simp [errTagOf]⟩

/-- C4 (amended): the orchestrator rejects with the `Invalid request` error
(HTTP 400) exactly when the body field is missing, not a string, or a falsy
string — i.e. the empty string, which never reaches the parser; every
nonempty string proceeds to the URL parser and is rejected with the distinct
`Invalid GitHub URL` error (HTTP 400) exactly when the parser returns
null. -/
theorem c4_input_validation
    (b : BodyValue) (f : FetchResults) (inf : InferResults) (g q : Bool) :
    (invalidInputCheck b = true →
      analyzeRepository b f inf g q = invalidInputResponse) ∧
    (errTagOf (analyzeRepository b f inf g q) = some "Invalid request" →
      invalidInputCheck b = true) ∧
    (∀ s, b = .str s → s.isEmpty = false →
      (analyzeRepository b f inf g q = invalidUrlResponse ↔
        parseGitHubUrl s.toList = none)) := by
  refine ⟨?_, ?_, ?_⟩
  · intro h
    simp [analyzeRepository, h]
  · intro h
    by_contra hc
    rw [Bool.not_eq_true] at hc
    cases b with
    | missing => simp [invalidInputCheck] at hc
    | nonString => simp [invalidInputCheck] at hc
    | str s =>
      rw [show invalidInputCheck (.str s) = s.isEmpty from rfl] at hc
      rw [show analyzeRepository (.str s) f inf g q =
          (match parseGitHubUrl s.data with
           | none => invalidUrlResponse
           | some id =>
             match f.repoData with
             | .rejected msg => classifyMetadataFailure id msg
             | .fulfilled meta => buildSuccessResponse meta f inf g q) from by
        simp [analyzeRepository, invalidInputCheck, hc]] at h
      cases hpr : parseGitHubUrl s.data with
      | none =>
        simp only [hpr] at h
        simp [invalidUrlResponse, errTagOf] at h
      | some id =>
        simp only [hpr] at h
        cases hd : f.repoData with
        | rejected msg =>
          simp only [hd] at h
          exact absurd h (classify_errTag_ne id msg).1
        | fulfilled meta =>
          simp only [hd] at h
          simp [buildSuccessResponse, errTagOf] at h
  · intro s hb hs
    subst hb
    have hred : analyzeRepository (.str s) f inf g q =
        (match parseGitHubUrl s.data with
         | none => invalidUrlResponse
         | some id =>
           match f.repoData with
           | .rejected msg => classifyMetadataFailure id msg
           | .fulfilled meta => buildSuccessResponse meta f inf g q) := by
      simp [analyzeRepository, invalidInputCheck, hs]
    rw [hred]
    constructor
    · intro h
      cases hpr : parseGitHubUrl s.data with
      | none => exact hpr
      | some id =>
        simp only [hpr] at h
        exfalso
        cases hd : f.repoData with
        | rejected msg =>
          simp only [hd] at h
          exact classify_status_ne_400 id msg (by rw [h]; rfl)
        | fulfilled meta =>
          simp only [hd] at h
          have h2 : (200 : Nat) = 400 := congrArg HttpResponse.status h
          exact absurd h2 (by decide)
    · intro h
      rw [show parseGitHubUrl s.toList = parseGitHubUrl s.data from rfl] at h
      rw [h]

theorem c4_input_validation_witness :
    analyzeRepository .missing wFulfilledFetch wInferAllRejected true true =
      invalidInputResponse ∧
    analyzeRepository (.str "not a url") wFulfilledFetch wInferAllRejected true true =
      invalidUrlResponse :=
  ⟨(c4_input_validation .missing wFulfilledFetch wInferAllRejected true true).1 rfl,
   ((c4_input_validation (.str "not a url") wFulfilledFetch wInferAllRejected
      true true).2.2 "not a url" rfl (by decide)).mpr (by decide)⟩

/-- C4 as stated is false: the guard `!repoUrl || typeof repoUrl !== 'string'`
treats the empty string — which is present and is a string — as invalid
input because it is falsy, so `""` yields the `Invalid request` error, not
the claimed pass-through to the parser and the distinct
`Invalid GitHub URL` error. -/
theorem c4_claim_counterexample :
    analyzeRepository (.str "") wFulfilledFetch wInferAllRejected true true =
      invalidInputResponse ∧
    errTagOf (analyzeRepository (.str "") wFulfilledFetch wInferAllRejected true true) =
      some "Invalid request" ∧
    (some "Invalid request" : Option String) ≠ some "Invalid GitHub URL" := by
  decide

/-! ## Claim C9 -/

/-- Reduction of the handler on a nonempty string body. -/
theorem analyzeRepository_reduce (s : String) (f : FetchResults) (inf : InferResults)
    (g q : Bool) (hs : s.isEmpty = false) :
    analyzeRepository (.str s) f inf g q =
      (match parseGitHubUrl s.toList with
       | none => invalidUrlResponse
       | some id =>
         match f.repoData with
         | .rejected msg => classifyMetadataFailure id msg
         | .fulfilled meta => buildSuccessResponse meta f inf g q) := by
  simp [analyzeRepository, invalidInputCheck, hs, String.toList]

/-- The success payload stripped of its `apiStatus` flags does not depend on
the credential flags. -/
theorem stripApi_buildSuccess (meta : RepoMetadata) (f : FetchResults)
    (inf : InferResults) (g q g' q' : Bool) :
    stripApiFlags (buildSuccessResponse meta f inf g q) =
      stripApiFlags (buildSuccessResponse meta f inf g' q') := by
  simp [buildSuccessResponse, stripApiFlags]

/-- The success payload stripped of both its `apiStatus` flags and its
analysis fields does not depend on the inference outcomes either. -/
theorem stripBoth_buildSuccess (meta : RepoMetadata) (f : FetchResults)
    (inf inf' : InferResults) (g q g' q' : Bool) :
    stripAnalysisFields (stripApiFlags (buildSuccessResponse meta f inf g q)) =
      stripAnalysisFields (stripApiFlags (buildSuccessResponse meta f inf' g' q')) := by
  simp [buildSuccessResponse, stripApiFlags, stripAnalysisFields]

/-- C9 (amended): the GitHub token is not a functional branch — for fixed
settled outcomes, the response is identical up to the informational
`apiStatus` flags whichever way `GITHUB_TOKEN` is set.  The Groq key is a
functional branch: varying it leaves everything but the analysis fields
(and the flags) unchanged, but with the key absent `GroqService.makeRequest`
throws before sending, so every analysis field degrades to its fallback
string. -/
theorem c9_credential_effects
    (b : BodyValue) (f : FetchResults) (up : InferResults) (g g2 q q2 : Bool) :
    stripApiFlags (runRequest b f up g q) = stripApiFlags (runRequest b f up g2 q) ∧
    stripAnalysisFields (stripApiFlags (runRequest b f up g q)) =
      stripAnalysisFields (stripApiFlags (runRequest b f up g q2)) ∧
    analysisAllFallbacks (runRequest b f up g false) = true := by
  unfold runRequest
  refine ⟨?_, ?_, ?_⟩
  · cases b with
    | missing => rfl
    | nonString => rfl
    | str s =>
      by_cases hs : s.isEmpty
      · simp [analyzeRepository, invalidInputCheck, hs]
      · rw [Bool.not_eq_true] at hs
        rw [analyzeRepository_reduce s f _ g q hs,
          analyzeRepository_reduce s f _ g2 q hs]
        cases hpr : parseGitHubUrl s.toList with
        | none => rfl
        | some id =>
          simp only [hpr]
          cases hd : f.repoData with
          | rejected msg => simp only [hd]
          | fulfilled meta =>
            simp only [hd]
            exact stripApi_buildSuccess meta f _ g q g2 q
  · cases b with
    | missing => rfl
    | nonString => rfl
    | str s =>
      by_cases hs : s.isEmpty
      · simp [analyzeRepository, invalidInputCheck, hs]
      · rw [Bool.not_eq_true] at hs
        rw [analyzeRepository_reduce s f _ g q hs,
          analyzeRepository_reduce s f _ g q2 hs]
        cases hpr : parseGitHubUrl s.toList with
        | none => rfl
        | some id =>
          simp only [hpr]
          cases hd : f.repoData with
          | rejected msg => simp only [hd]
          | fulfilled meta =>
            simp only [hd]
            exact stripBoth_buildSuccess meta f _ _ g q g q2
  · cases b with
    | missing => rfl
    | nonString => rfl
    | str s =>
      by_cases hs : s.isEmpty
      · simp [analyzeRepository, invalidInputCheck, hs, invalidInputResponse,
          analysisAllFallbacks, analysisOf]
      · rw [Bool.not_eq_true] at hs
        rw [analyzeRepository_reduce s f _ g false hs]
        cases hpr : parseGitHubUrl s.toList with
        | none =>
          simp [invalidUrlResponse, analysisAllFallbacks, analysisOf]
        | some id =>
          simp only [hpr]
          cases hd : f.repoData with
          | rejected msg =>
            simp only [hd]
            simp [analysisAllFallbacks, classify_analysisOf]
          | fulfilled meta =>
            simp only [hd]
            simp [analysisAllFallbacks, analysisOf, buildSuccessResponse,
              gateInference, settledOrElse]

/-- C9 as stated is false: two runs that differ only in whether
`GROQ_API_KEY` is configured produce different response fields beyond the
informational `apiStatus` flags — with the key absent every inference call
rejects inside `makeRequest`, so all four analysis fields become fallback
strings instead of the upstream outputs. -/
theorem c9_claim_counterexample :
    stripApiFlags (runRequest (.str "facebook/react") wFulfilledFetch wInferAllFulfilled
      true true) ≠
    stripApiFlags (runRequest (.str "facebook/react") wFulfilledFetch wInferAllFulfilled
      true false) := by
  decide

/-! ## Claim C10 -/

/-- C10: the `GroqService` constructor builds the `Authorization` header
from the never-assigned field `this.apiKey` (the hardcoded assignment is
commented out), so the header is the fixed string `"Bearer undefined"`
regardless of the `GROQ_API_KEY` environment variable; the environment key
only decides whether `makeRequest` throws before sending, never the
credential transmitted. -/
theorem c10_groq_auth_header (envKey : Option String) :
    (groqInit envKey).authHeader = "Bearer undefined" ∧
    (envKey = none →
      groqMakeRequest envKey (groqInit envKey) = .thrown groqKeyMissingMsg) ∧
    (∀ k, envKey = some k →
      groqMakeRequest envKey (groqInit envKey) = .sent "Bearer undefined") := by
  refine ⟨rfl, ?_, ?_⟩
  · intro h
    simp [groqMakeRequest, h]
  · intro k h
    simp [groqMakeRequest, h, groqInit, jsInterpolate]

theorem c10_groq_auth_header_witness :
    groqMakeRequest none (groqInit none) = .thrown groqKeyMissingMsg ∧
    groqMakeRequest (some "gsk-some-env-key") (groqInit (some "gsk-some-env-key")) =
      .sent "Bearer undefined" :=
  ⟨(c10_groq_auth_header none).2.1 rfl,
   (c10_groq_auth_header (some "gsk-some-env-key")).2.2 "gsk-some-env-key" rfl⟩

/-! ## Parser lemmas: characters -/

/-- Every character of the class `[a-zA-Z0-9._-]` lies between `-` and `z`. -/
theorem classChar_bounds {c : Char} (h : classChar c = true) : '-' ≤ c ∧ c ≤ 'z' := by
  simp only [classChar, Bool.or_eq_true, Bool.and_eq_true, decide_eq_true_eq] at h
  rcases h with (((((⟨h1, h2⟩ | ⟨h1, h2⟩) | ⟨h1, h2⟩) | h) | h) | h)
  · exact ⟨le_trans (by decide) h1, h2⟩
  · exact ⟨le_trans (by decide) h1, le_trans h2 (by decide)⟩
  · exact ⟨le_trans (by decide) h1, le_trans h2 (by decide)⟩
  all_goals subst h
  all_goals decide

/-- Class characters are not JS whitespace (their code points lie strictly
between the ASCII whitespace block and the Unicode space separators). -/
theorem not_ws_of_class {c : Char} (h : classChar c = true) : isJsWhitespace c = false := by
  obtain ⟨h1, h2⟩ := classChar_bounds h
  by_contra hw
  rw [Bool.not_eq_false] at hw
  simp only [isJsWhitespace, Bool.or_eq_true, Bool.and_eq_true, decide_eq_true_eq] at hw
  rcases hw with ((((((((((((((h | h) | h) | h) | h) | h) | h) | h) | h) | h) | h) | h) | h) | h) | h)
  all_goals first
    | (subst h; revert h1 h2; decide)
    | (exact absurd (le_trans h.1 h2) (by decide))

/-- Class characters are matched by the JS dot (they are not line
terminators). -/
theorem dotAny_of_class {c : Char} (h : classChar c = true) : dotAnyChar c = true := by
  obtain ⟨h1, h2⟩ := classChar_bounds h
  by_contra hw
  rw [Bool.not_eq_true] at hw
  simp only [dotAnyChar, Bool.not_eq_false', Bool.or_eq_true, decide_eq_true_eq] at hw
  rcases hw with ((h | h) | h) | h
  all_goals subst h
  all_goals revert h1 h2
  all_goals decide

/-- Class characters or `/` are not JS whitespace. -/
theorem not_ws_of_class_or_slash {c : Char} (h : classChar c = true ∨ c = '/') :
    isJsWhitespace c = false := by
  rcases h with h | h
  · exact not_ws_of_class h
  · subst h; decide

/-! ## Parser lemmas: takeWhile, dropWhile, trim -/

theorem dropWhile_eq_self_of_none {p : Char → Bool} {l : List Char}
    (h : ∀ c ∈ l, p c = false) : l.dropWhile p = l := by
  cases l with
  | nil => rfl
  | cons a t => simp [List.dropWhile_cons, h a (List.mem_cons_self a t)]

theorem jsTrim_eq_self {l : List Char} (h : ∀ c ∈ l, isJsWhitespace c = false) :
    jsTrim l = l := by
  unfold jsTrim
  rw [dropWhile_eq_self_of_none h,
    dropWhile_eq_self_of_none (fun c hc => h c (List.mem_reverse.mp hc)),
    List.reverse_reverse]

/-- Splitting a list at the first character failing `p`, when the list is an
all-`p` block followed by a failing character. -/
theorem takeWhile_append_cons {p : Char → Bool} {a : List Char} {c : Char} {b : List Char}
    (ha : ∀ x ∈ a, p x = true) (hc : p c = false) :
    (a ++ c :: b).takeWhile p = a ∧ (a ++ c :: b).dropWhile p = c :: b := by
  induction a with
  | nil => simp [List.takeWhile_cons, List.dropWhile_cons, hc]
  | cons x xs ih =>
    have hx : p x = true := ha x (List.mem_cons_self x xs)
    have ih' := ih (fun y hy => ha y (List.mem_cons_of_mem x hy))
    simp [List.takeWhile_cons, List.dropWhile_cons, hx, ih'.1, ih'.2]

theorem takeWhile_eq_self_of_all {p : Char → Bool} {l : List Char}
    (h : ∀ x ∈ l, p x = true) : l.takeWhile p = l ∧ l.dropWhile p = [] := by
  induction l with
  | nil => simp
  | cons x xs ih =>
    have hx : p x = true := h x (List.mem_cons_self x xs)
    have ih' := ih (fun y hy => h y (List.mem_cons_of_mem x hy))
    simp [List.takeWhile_cons, List.dropWhile_cons, hx, ih'.1, ih'.2]

/-! ## Parser lemmas: suffixes and the two strips -/

theorem endsWithL_iff {l s : List Char} : endsWithL l s = true ↔ s <:+ l := by
  simp [endsWithL]

theorem not_suffix_of_endsWithL_false {l s : List Char} (h : endsWithL l s = false) :
    ¬ s <:+ l := fun hs => by rw [endsWithL_iff.mpr hs] at h; cases h

theorem suffix_of_suffix_length_le {s t l : List Char}
    (hs : s <:+ l) (ht : t <:+ l) (h : s.length ≤ t.length) : s <:+ t := by
  rw [← List.reverse_prefix] at hs ht ⊢
  exact List.prefix_of_prefix_length_le hs ht (by simpa using h)

/-- A suffix of `a ++ c :: b` is a suffix of `b`, or extends through `c`. -/
theorem suffix_split {s a b : List Char} {c : Char} (h : s <:+ a ++ c :: b) :
    s <:+ b ∨ c :: b <:+ s := by
  have hb : c :: b <:+ a ++ c :: b := List.suffix_append a (c :: b)
  rcases le_or_lt s.length b.length with hle | hlt
  · left
    have h2 : s <:+ c :: b := suffix_of_suffix_length_le h hb (by simp; omega)
    rcases List.suffix_cons_iff.mp h2 with he | h3
    · exfalso
      have : s.length = b.length + 1 := by rw [he]; simp
      omega
    · exact h3
  · right
    exact suffix_of_suffix_length_le hb h (by simp; omega)

theorem stripDotGit_append (x : List Char) : stripDotGit (x ++ gitSuffixChars) = x := by
  unfold stripDotGit
  rw [if_pos (endsWithL_iff.mpr (List.suffix_append x gitSuffixChars))]
  have h4 : (x ++ gitSuffixChars).length - 4 = x.length := by
    simp [gitSuffixChars]
  rw [h4, List.take_left]

theorem stripDotGit_eq_self {l : List Char} (h : ¬ gitSuffixChars <:+ l) :
    stripDotGit l = l := by
  unfold stripDotGit
  rw [if_neg (fun hb => h (endsWithL_iff.mp hb))]

theorem stripTrailingSlash_append (x : List Char) :
    stripTrailingSlash (x ++ ['/']) = x := by
  unfold stripTrailingSlash
  rw [if_pos (endsWithL_iff.mpr (List.suffix_append x ['/']))]
  have h1 : (x ++ ['/']).length - 1 = x.length := by simp
  rw [h1, List.take_left]

theorem stripTrailingSlash_eq_self {l : List Char} (h : ¬ (['/'] <:+ l)) :
    stripTrailingSlash l = l := by
  unfold stripTrailingSlash
  rw [if_neg (fun hb => h (endsWithL_iff.mp hb))]

/-- The list `.git` is not a suffix of `a ++ '/' :: r` when it is not a suffix of `r`
(the candidate crossing the `/` would need `/` inside `".git"`). -/
theorem not_git_suffix {a r : List Char} (hg : ¬ gitSuffixChars <:+ r) :
    ¬ gitSuffixChars <:+ (a ++ '/' :: r) := by
  intro h
  rcases suffix_split h with h1 | h2
  · exact hg h1
  · exact absurd (h2.subset (List.mem_cons_self '/' r)) (by decide)

/-- The slash `/` is not a suffix of `a ++ '/' :: r` when `r` is nonempty and does not
itself end in `/`. -/
theorem not_slash_suffix {a r : List Char} (hne : r ≠ []) (hr : ¬ (['/'] <:+ r)) :
    ¬ (['/'] <:+ (a ++ '/' :: r)) := by
  intro h
  rcases suffix_split h with h1 | h2
  · exact hr h1
  · have hlen := h2.length_le
    simp at hlen
    exact hne hlen

/-- A list of class characters does not end in `/`. -/
theorem not_slash_suffix_of_class {r : List Char} (hr : ∀ c ∈ r, classChar c = true) :
    ¬ (['/'] <:+ r) := by
  intro h
  have := hr '/' (h.subset (List.mem_cons_self '/' []))
  exact absurd this (by decide)

/-! ## Parser lemmas: the matchers -/

theorem schemeSplit_https (x : List Char) :
    schemeSplit (httpsHostChars ++ x) = some x := by
  unfold schemeSplit
  rw [if_pos ( List.isPrefixOf_iff_prefix.mpr (List.prefix_append httpsHostChars x))]
  rw [List.drop_left' (by decide : httpsHostChars.length = 19)]

theorem schemeSplit_ssh_none (x : List Char) :
    schemeSplit (sshHostChars ++ x) = none := rfl

theorem sshSplit_ssh (x : List Char) :
    sshSplit (sshHostChars ++ x) = some x := by
  unfold sshSplit
  rw [if_pos ( List.isPrefixOf_iff_prefix.mpr (List.prefix_append sshHostChars x))]
  rw [List.drop_left' (by decide : sshHostChars.length = 15)]

theorem schemeSplit_eq_some {l rest : List Char} (h : schemeSplit l = some rest) :
    l = httpsHostChars ++ rest ∨ l = httpHostChars ++ rest := by
  unfold schemeSplit at h
  split_ifs at h with h1 h2
  · left
    obtain ⟨t, ht⟩ := List.isPrefixOf_iff_prefix.mp h1
    injection h with h
    subst ht
    rw [← h, List.drop_left' (by decide : httpsHostChars.length = 19)]
  · right
    obtain ⟨t, ht⟩ := List.isPrefixOf_iff_prefix.mp h2
    injection h with h
    subst ht
    rw [← h, List.drop_left' (by decide : httpHostChars.length = 18)]

theorem sshSplit_eq_some {l rest : List Char} (h : sshSplit l = some rest) :
    l = sshHostChars ++ rest := by
  unfold sshSplit at h
  split_ifs at h with h1
  obtain ⟨t, ht⟩ := List.isPrefixOf_iff_prefix.mp h1
  injection h with h
  subst ht
  rw [← h, List.drop_left' (by decide : sshHostChars.length = 15)]

theorem schemeSplit_mem {l rest : List Char} (h : schemeSplit l = some rest) :
    ':' ∈ l := by
  rcases schemeSplit_eq_some h with he | he <;> subst he <;>
    exact List.mem_append_left _ (by decide)

theorem sshSplit_mem {l rest : List Char} (h : sshSplit l = some rest) :
    '@' ∈ l := by
  rw [sshSplit_eq_some h]
  exact List.mem_append_left _ (by decide)

theorem schemeSplit_none_of_no_colon {l : List Char} (h : ':' ∉ l) :
    schemeSplit l = none := by
  cases hq : schemeSplit l with
  | none => rfl
  | some r => exact absurd (schemeSplit_mem hq) h

theorem sshSplit_none_of_no_at {l : List Char} (h : '@' ∉ l) :
    sshSplit l = none := by
  cases hq : sshSplit l with
  | none => rfl
  | some r => exact absurd (sshSplit_mem hq) h

theorem isEmpty_false_of_ne {l : List Char} (h : l ≠ []) : l.isEmpty = false := by
  cases l with
  | nil => exact absurd rfl h
  | cons a t => rfl

/-- The owner/repo-to-end matcher on an exact `owner ++ '/' :: repo` list of
class characters. -/
theorem matchEnd_class {o r : List Char}
    (hone : o ≠ []) (hoc : ∀ c ∈ o, classChar c = true)
    (hrne : r ≠ []) (hrc : ∀ c ∈ r, classChar c = true) :
    matchOwnerRepoEnd (o ++ '/' :: r) = some (o, r) := by
  obtain ⟨ht, hd⟩ := takeWhile_append_cons hoc (by decide : classChar '/' = false)
  obtain ⟨hrt, hrd⟩ := takeWhile_eq_self_of_all hrc
  unfold matchOwnerRepoEnd
  rw [ht, hd]
  simp only [hrt, hrd]
  simp [isEmpty_false_of_ne hone, isEmpty_false_of_ne hrne]

/-- The owner/repo-plus-path matcher with no extra path. -/
theorem matchPath_class_nil {o r : List Char}
    (hone : o ≠ []) (hoc : ∀ c ∈ o, classChar c = true)
    (hrne : r ≠ []) (hrc : ∀ c ∈ r, classChar c = true) :
    matchOwnerRepoPath (o ++ '/' :: r) = some (o, r) := by
  obtain ⟨ht, hd⟩ := takeWhile_append_cons hoc (by decide : classChar '/' = false)
  obtain ⟨hrt, hrd⟩ := takeWhile_eq_self_of_all hrc
  unfold matchOwnerRepoPath
  rw [ht, hd]
  simp only [hrt, hrd]
  simp [isEmpty_false_of_ne hone, isEmpty_false_of_ne hrne]

/-- The owner/repo-plus-path matcher with a nonempty extra path: the path
must contain no line terminators, which class characters and `/` never
are. -/
theorem matchPath_class_tail {o r t : List Char}
    (hone : o ≠ []) (hoc : ∀ c ∈ o, classChar c = true)
    (hrne : r ≠ []) (hrc : ∀ c ∈ r, classChar c = true)
    (htp : ∀ c ∈ t, classChar c = true ∨ c = '/') :
    matchOwnerRepoPath (o ++ '/' :: (r ++ '/' :: t)) = some (o, r) := by
  obtain ⟨ht, hd⟩ := takeWhile_append_cons hoc (by decide : classChar '/' = false)
  obtain ⟨hrt, hrd⟩ :=
    takeWhile_append_cons (b := t) hrc (by decide : classChar '/' = false)
  have hdot : t.all dotAnyChar = true := by
    rw [List.all_eq_true]
    intro c hc
    rcases htp c hc with h | h
    · exact dotAny_of_class h
    · subst h; decide
  unfold matchOwnerRepoPath
  rw [ht, hd]
  simp only [hrt, hrd]
  simp [isEmpty_false_of_ne hone, isEmpty_false_of_ne hrne, hdot]

theorem matchOwnerRepoEnd_mem {l : List Char} {pr : List Char × List Char}
    (h : matchOwnerRepoEnd l = some pr) : '/' ∈ l := by
  unfold matchOwnerRepoEnd at h
  cases hd : l.dropWhile classChar with
  | nil => rw [hd] at h; cases h
  | cons c rest =>
    rw [hd] at h
    have hm : c ∈ l.dropWhile classChar := hd ▸ List.mem_cons_self c rest
    have hc : c = '/' := by
      by_contra hne
      revert h
      split
      · next heq => exact absurd (List.head_eq_of_cons_eq heq) hne
      · exact fun h => Option.noConfusion h
    subst hc
    exact (List.dropWhile_sublist classChar).subset hm

theorem matchOwnerRepoPath_mem {l : List Char} {pr : List Char × List Char}
    (h : matchOwnerRepoPath l = some pr) : '/' ∈ l := by
  unfold matchOwnerRepoPath at h
  cases hd : l.dropWhile classChar with
  | nil => rw [hd] at h; cases h
  | cons c rest =>
    rw [hd] at h
    have hm : c ∈ l.dropWhile classChar := hd ▸ List.mem_cons_self c rest
    have hc : c = '/' := by
      by_contra hne
      revert h
      split
      · next heq => exact absurd (List.head_eq_of_cons_eq heq) hne
      · exact fun h => Option.noConfusion h
    subst hc
    exact (List.dropWhile_sublist classChar).subset hm

/-- Whatever pattern matched, the normalized input contains `/`. -/
theorem matchFirstForm_mem {l : List Char} {pr : List Char × List Char}
    (h : matchFirstForm l = some pr) : '/' ∈ l := by
  unfold matchFirstForm at h
  cases h1 : matchHttpsUrl l with
  | some p =>
    unfold matchHttpsUrl at h1
    cases h2 : schemeSplit l with
    | none => rw [h2] at h1; cases h1
    | some rest =>
      rcases schemeSplit_eq_some h2 with he | he <;> rw [he] <;>
        exact List.mem_append_left _ (by decide)
  | none =>
    rw [h1] at h
    cases h2 : matchSshUrl l with
    | some p =>
      unfold matchSshUrl at h2
      cases h3 : sshSplit l with
      | none => rw [h3] at h2; cases h2
      | some rest =>
        rw [h3] at h2
        rw [sshSplit_eq_some h3]
        exact List.mem_append_right _ (matchOwnerRepoEnd_mem h2)
    | none =>
      rw [h2] at h
      exact matchOwnerRepoEnd_mem h

/-! ## Parser lemmas: normalization on the accepted shapes -/

theorem validNameTest_parts {n : List Char} (h : validNameTest n = true) :
    n ≠ [] ∧ ∀ c ∈ n, classChar c = true := by
  have h1 : n.all classChar = true := by
    simp only [validNameTest, Bool.and_eq_true] at h
    exact h.2
  refine ⟨fun he => ?_, List.all_eq_true.mp h1⟩
  subst he
  simp [validNameTest] at h

theorem validNameTest_of_parts {n : List Char} (hne : n ≠ [])
    (hc : ∀ c ∈ n, classChar c = true) : validNameTest n = true := by
  simp only [validNameTest, Bool.and_eq_true, Bool.not_eq_true']
  exact ⟨isEmpty_false_of_ne hne, List.all_eq_true.mpr hc⟩

/-- The validator succeeds on names passing both checks. -/
theorem validate_good {o r : List Char}
    (ho : validNameTest o = true) (hr : validNameTest r = true)
    (hdo : startsWithDotOrDash o = false) (hdr : startsWithDotOrDash r = false) :
    validateOwnerRepo o r = some ⟨o, r⟩ := by
  unfold validateOwnerRepo
  rw [if_neg (by simp [ho, hr]), if_neg (by simp [hdo, hdr])]

/-- Whenever the parser returns an identifier, its two components passed the
`validNamePattern` test and the leading-character check. -/
theorem parse_some_valid {l o r : List Char}
    (h : parseGitHubUrl l = some ⟨o, r⟩) :
    validNameTest o = true ∧ validNameTest r = true ∧
    startsWithDotOrDash o = false ∧ startsWithDotOrDash r = false := by
  unfold parseGitHubUrl at h
  cases hm : matchFirstForm (normalizeUrl l) with
  | none => rw [hm] at h; cases h
  | some pr =>
    rw [hm] at h
    obtain ⟨o', r'⟩ := pr
    have h' : validateOwnerRepo o' r' = some ⟨o, r⟩ := h
    unfold validateOwnerRepo at h'
    split_ifs at h' with h1 h2
    simp only [Option.some.injEq, RepositoryIdentifier.mk.injEq] at h'
    obtain ⟨heo, her⟩ := h'
    subst heo
    subst her
    rw [Bool.not_eq_true] at h1 h2
    simp only [Bool.or_eq_false_iff, Bool.not_eq_false'] at h1 h2
    exact ⟨h1.1, h1.2, h2.1, h2.2⟩

/-- The whole normalization pipeline is the identity on `a ++ '/' :: r` when
`r` is a nonempty block of class characters not ending in `.git` and no
character is whitespace. -/
theorem normalizeUrl_eq_self_slash_class {a r : List Char}
    (hws : ∀ c ∈ a ++ '/' :: r, isJsWhitespace c = false)
    (hrne : r ≠ []) (hrc : ∀ c ∈ r, classChar c = true)
    (hg : ¬ gitSuffixChars <:+ r) :
    normalizeUrl (a ++ '/' :: r) = a ++ '/' :: r := by
  unfold normalizeUrl
  rw [jsTrim_eq_self hws, stripDotGit_eq_self (not_git_suffix hg),
    stripTrailingSlash_eq_self
      (not_slash_suffix hrne (not_slash_suffix_of_class hrc))]

/-- All characters of the three host prefixes are non-whitespace. -/
theorem hosts_not_ws :
    (∀ c ∈ httpsHostChars, isJsWhitespace c = false) ∧
    (∀ c ∈ httpHostChars, isJsWhitespace c = false) ∧
    (∀ c ∈ sshHostChars, isJsWhitespace c = false) := by
  refine ⟨?_, ?_, ?_⟩ <;> decide

/-- Assembled no-whitespace hypothesis for a host prefix followed by
`o ++ '/' :: rest`. -/
theorem ws_parts {hst o rest : List Char}
    (hh : ∀ c ∈ hst, isJsWhitespace c = false)
    (ho : ∀ c ∈ o, classChar c = true)
    (hr : ∀ c ∈ rest, isJsWhitespace c = false) :
    ∀ c ∈ hst ++ (o ++ '/' :: rest), isJsWhitespace c = false := by
  intro c hc
  rcases List.mem_append.mp hc with hc | hc
  · exact hh c hc
  · rcases List.mem_append.mp hc with hc | hc
    · exact not_ws_of_class (ho c hc)
    · rcases List.mem_cons.mp hc with hc | hc
      · subst hc; decide
      · exact hr c hc

theorem ws_of_class {r : List Char} (hr : ∀ c ∈ r, classChar c = true) :
    ∀ c ∈ r, isJsWhitespace c = false :=
  fun c hc => not_ws_of_class (hr c hc)

/-- Transfer an `endsWithL … = false` fact to the ambient list. -/
theorem not_git_suffix_of_endsWith {a r : List Char}
    (hg : endsWithL r gitSuffixChars = false) :
    ¬ gitSuffixChars <:+ (a ++ '/' :: r) :=
  not_git_suffix (not_suffix_of_endsWithL_false hg)

/-! ## Parser lemmas: full parses of the accepted shapes -/

/-- Parsing the bare `owner/repo` form of two valid names (repo not ending
in `.git`). -/
theorem parse_bare_of_valid {o r : List Char}
    (ho : validNameTest o = true) (hr : validNameTest r = true)
    (hdo : startsWithDotOrDash o = false) (hdr : startsWithDotOrDash r = false)
    (hg : endsWithL r gitSuffixChars = false) :
    parseGitHubUrl (o ++ '/' :: r) = some ⟨o, r⟩ := by
  obtain ⟨hone, hoc⟩ := validNameTest_parts ho
  obtain ⟨hrne, hrc⟩ := validNameTest_parts hr
  have hws : ∀ c ∈ o ++ '/' :: r, isJsWhitespace c = false := by
    intro c hc
    rcases List.mem_append.mp hc with hc | hc
    · exact not_ws_of_class (hoc c hc)
    · rcases List.mem_cons.mp hc with hc | hc
      · subst hc; decide
      · exact not_ws_of_class (hrc c hc)
  have hnorm := normalizeUrl_eq_self_slash_class hws hrne hrc
    (not_suffix_of_endsWithL_false hg)
  have hcolon : ':' ∉ o ++ '/' :: r := by
    intro hm
    rcases List.mem_append.mp hm with hm | hm
    · exact absurd (hoc ':' hm) (by decide)
    · rcases List.mem_cons.mp hm with hm | hm
      · cases hm
      · exact absurd (hrc ':' hm) (by decide)
  have hat : '@' ∉ o ++ '/' :: r := by
    intro hm
    rcases List.mem_append.mp hm with hm | hm
    · exact absurd (hoc '@' hm) (by decide)
    · rcases List.mem_cons.mp hm with hm | hm
      · cases hm
      · exact absurd (hrc '@' hm) (by decide)
  have hhttps : matchHttpsUrl (o ++ '/' :: r) = none := by
    unfold matchHttpsUrl
    rw [schemeSplit_none_of_no_colon hcolon]
  have hssh : matchSshUrl (o ++ '/' :: r) = none := by
    unfold matchSshUrl
    rw [sshSplit_none_of_no_at hat]
  have hfirst : matchFirstForm (o ++ '/' :: r) = some (o, r) := by
    unfold matchFirstForm matchBareForm
    rw [hhttps, hssh, matchEnd_class hone hoc hrne hrc]
  unfold parseGitHubUrl
  rw [hnorm, hfirst]
  exact validate_good ho hr hdo hdr

/-- Parsing the plain HTTPS form. -/
theorem parse_https_plain {o r : List Char}
    (ho : validNameTest o = true) (hr : validNameTest r = true)
    (hdo : startsWithDotOrDash o = false) (hdr : startsWithDotOrDash r = false)
    (hg : endsWithL r gitSuffixChars = false) :
    parseGitHubUrl (httpsHostChars ++ (o ++ '/' :: r)) = some ⟨o, r⟩ := by
  obtain ⟨hone, hoc⟩ := validNameTest_parts ho
  obtain ⟨hrne, hrc⟩ := validNameTest_parts hr
  have hws := ws_parts hosts_not_ws.1 hoc (ws_of_class hrc)
  have hassoc : httpsHostChars ++ (o ++ '/' :: r) =
      (httpsHostChars ++ o) ++ '/' :: r := by simp
  have hnorm : normalizeUrl (httpsHostChars ++ (o ++ '/' :: r)) =
      httpsHostChars ++ (o ++ '/' :: r) := by
    rw [hassoc]
    exact normalizeUrl_eq_self_slash_class (hassoc ▸ hws) hrne hrc
      (not_suffix_of_endsWithL_false hg)
  have hhttps : matchHttpsUrl (httpsHostChars ++ (o ++ '/' :: r)) = some (o, r) := by
    unfold matchHttpsUrl
    rw [schemeSplit_https]
    exact matchPath_class_nil hone hoc hrne hrc
  have hfirst : matchFirstForm (httpsHostChars ++ (o ++ '/' :: r)) = some (o, r) := by
    unfold matchFirstForm
    rw [hhttps]
  unfold parseGitHubUrl
  rw [hnorm, hfirst]
  exact validate_good ho hr hdo hdr

/-- Parsing the plain SSH form. -/
theorem parse_ssh_plain {o r : List Char}
    (ho : validNameTest o = true) (hr : validNameTest r = true)
    (hdo : startsWithDotOrDash o = false) (hdr : startsWithDotOrDash r = false)
    (hg : endsWithL r gitSuffixChars = false) :
    parseGitHubUrl (sshHostChars ++ (o ++ '/' :: r)) = some ⟨o, r⟩ := by
  obtain ⟨hone, hoc⟩ := validNameTest_parts ho
  obtain ⟨hrne, hrc⟩ := validNameTest_parts hr
  have hws := ws_parts hosts_not_ws.2.2 hoc (ws_of_class hrc)
  have hassoc : sshHostChars ++ (o ++ '/' :: r) =
      (sshHostChars ++ o) ++ '/' :: r := by simp
  have hnorm : normalizeUrl (sshHostChars ++ (o ++ '/' :: r)) =
      sshHostChars ++ (o ++ '/' :: r) := by
    rw [hassoc]
    exact normalizeUrl_eq_self_slash_class (hassoc ▸ hws) hrne hrc
      (not_suffix_of_endsWithL_false hg)
  have hssh : matchSshUrl (sshHostChars ++ (o ++ '/' :: r)) = some (o, r) := by
    unfold matchSshUrl
    rw [sshSplit_ssh]
    exact matchEnd_class hone hoc hrne hrc
  have hfirst : matchFirstForm (sshHostChars ++ (o ++ '/' :: r)) = some (o, r) := by
    unfold matchFirstForm
    rw [show matchHttpsUrl (sshHostChars ++ (o ++ '/' :: r)) = none from rfl, hssh]
  unfold parseGitHubUrl
  rw [hnorm, hfirst]
  exact validate_good ho hr hdo hdr

/-- Parsing the SSH form with the optional `.git` suffix: normalization
strips the suffix and the parse proceeds as in the plain SSH form. -/
theorem parse_ssh_git {o r : List Char}
    (ho : validNameTest o = true) (hr : validNameTest r = true)
    (hdo : startsWithDotOrDash o = false) (hdr : startsWithDotOrDash r = false)
    (hg : endsWithL r gitSuffixChars = false) :
    parseGitHubUrl (sshHostChars ++ (o ++ '/' :: (r ++ gitSuffixChars))) =
      some ⟨o, r⟩ := by
  obtain ⟨hone, hoc⟩ := validNameTest_parts ho
  obtain ⟨hrne, hrc⟩ := validNameTest_parts hr
  have hws : ∀ c ∈ sshHostChars ++ (o ++ '/' :: (r ++ gitSuffixChars)),
      isJsWhitespace c = false := by
    refine ws_parts hosts_not_ws.2.2 hoc ?_
    intro c hc
    rcases List.mem_append.mp hc with hc | hc
    · exact not_ws_of_class (hrc c hc)
    · exact (by decide : ∀ c ∈ gitSuffixChars, isJsWhitespace c = false) c hc
  have hassoc : sshHostChars ++ (o ++ '/' :: (r ++ gitSuffixChars)) =
      (sshHostChars ++ (o ++ '/' :: r)) ++ gitSuffixChars := by simp
  have hstrip : stripTrailingSlash (sshHostChars ++ (o ++ '/' :: r)) =
      sshHostChars ++ (o ++ '/' :: r) := by
    rw [show sshHostChars ++ (o ++ '/' :: r) = (sshHostChars ++ o) ++ '/' :: r
      from by simp]
    exact stripTrailingSlash_eq_self
      (not_slash_suffix hrne (not_slash_suffix_of_class hrc))
  have hssh : matchSshUrl (sshHostChars ++ (o ++ '/' :: r)) = some (o, r) := by
    unfold matchSshUrl
    rw [sshSplit_ssh]
    exact matchEnd_class hone hoc hrne hrc
  have hfirst : matchFirstForm (sshHostChars ++ (o ++ '/' :: r)) = some (o, r) := by
    unfold matchFirstForm
    rw [show matchHttpsUrl (sshHostChars ++ (o ++ '/' :: r)) = none from rfl, hssh]
  unfold parseGitHubUrl normalizeUrl
  rw [jsTrim_eq_self hws, hassoc, stripDotGit_append, hstrip, hfirst]
  exact validate_good ho hr hdo hdr

/-- Normalization step for the trailing-slash strip on an HTTPS URL with a
nonempty extra-path region `q` of class characters and slashes: the result
either falls back to the plain form or keeps a (possibly empty) path
region. -/
theorem stripSlash_path_cases (a r q : List Char)
    (hrc : ∀ c ∈ r, classChar c = true)
    (hq : ∀ c ∈ q, classChar c = true ∨ c = '/') :
    stripTrailingSlash (a ++ (r ++ '/' :: q)) = a ++ r ∧ q = [] ∨
    ∃ q2, (∀ c ∈ q2, classChar c = true ∨ c = '/') ∧
      stripTrailingSlash (a ++ (r ++ '/' :: q)) = a ++ (r ++ '/' :: q2) := by
  by_cases hqs : endsWithL q ['/'] = true
  · obtain ⟨q2, hq2⟩ := endsWithL_iff.mp hqs
    right
    refine ⟨q2, fun c hc => hq c (hq2 ▸ List.mem_append_left _ hc), ?_⟩
    have hW : a ++ (r ++ '/' :: q) = (a ++ (r ++ '/' :: q2)) ++ ['/'] := by
      rw [← hq2]
      simp
    rw [hW, stripTrailingSlash_append]
  · rcases eq_or_ne q [] with hqe | hne
    · left
      subst hqe
      have hW : a ++ (r ++ '/' :: ([] : List Char)) = (a ++ r) ++ ['/'] := by simp
      rw [hW, stripTrailingSlash_append]
      exact ⟨rfl, rfl⟩
    · right
      refine ⟨q, hq, ?_⟩
      have hns : ¬ (['/'] <:+ q) := not_suffix_of_endsWithL_false
        (Bool.not_eq_true _ ▸ hqs)
      rw [show a ++ (r ++ '/' :: q) = (a ++ r) ++ '/' :: q from by simp,
        stripTrailingSlash_eq_self (not_slash_suffix hne hns)]

/-- Parsing the HTTPS form with extra path segments (any nonempty mix of
class characters and `/` after `owner/repo/`). -/
theorem parse_https_path {o r p : List Char}
    (ho : validNameTest o = true) (hr : validNameTest r = true)
    (hdo : startsWithDotOrDash o = false) (hdr : startsWithDotOrDash r = false)
    (hg : endsWithL r gitSuffixChars = false)
    (hp : ∀ c ∈ p, classChar c = true ∨ c = '/') :
    parseGitHubUrl (httpsHostChars ++ (o ++ '/' :: (r ++ '/' :: p))) =
      some ⟨o, r⟩ := by
  obtain ⟨hone, hoc⟩ := validNameTest_parts ho
  obtain ⟨hrne, hrc⟩ := validNameTest_parts hr
  have hws : ∀ c ∈ httpsHostChars ++ (o ++ '/' :: (r ++ '/' :: p)),
      isJsWhitespace c = false := by
    refine ws_parts hosts_not_ws.1 hoc ?_
    intro c hc
    rcases List.mem_append.mp hc with hc | hc
    · exact not_ws_of_class (hrc c hc)
    · rcases List.mem_cons.mp hc with hc | hc
      · subst hc; decide
      · exact not_ws_of_class_or_slash (hp c hc)
  unfold parseGitHubUrl normalizeUrl
  rw [jsTrim_eq_self hws]
  -- `.git`-strip analysis on the path region
  have hgit : ∃ q, (∀ c ∈ q, classChar c = true ∨ c = '/') ∧
      stripDotGit (httpsHostChars ++ (o ++ '/' :: (r ++ '/' :: p))) =
        httpsHostChars ++ (o ++ '/' :: (r ++ '/' :: q)) := by
    by_cases hpg : endsWithL p gitSuffixChars = true
    · obtain ⟨p1, hp1⟩ := endsWithL_iff.mp hpg
      refine ⟨p1, fun c hc => hp c (hp1 ▸ List.mem_append_left _ hc), ?_⟩
      have hW : httpsHostChars ++ (o ++ '/' :: (r ++ '/' :: p)) =
          (httpsHostChars ++ (o ++ '/' :: (r ++ '/' :: p1))) ++ gitSuffixChars := by
        rw [← hp1]
        simp
      rw [hW, stripDotGit_append]
    · refine ⟨p, hp, ?_⟩
      have hns : ¬ gitSuffixChars <:+
          (httpsHostChars ++ (o ++ '/' :: (r ++ '/' :: p))) := by
        rw [show httpsHostChars ++ (o ++ '/' :: (r ++ '/' :: p)) =
          (httpsHostChars ++ (o ++ '/' :: r)) ++ '/' :: p from by simp]
        exact not_git_suffix (not_suffix_of_endsWithL_false
          (Bool.not_eq_true _ ▸ hpg))
      rw [stripDotGit_eq_self hns]
  obtain ⟨q, hqm, hqeq⟩ := hgit
  rw [hqeq]
  -- trailing-slash strip analysis
  have hsl := stripSlash_path_cases (httpsHostChars ++ o ++ ['/']) r q hrc hqm
  have hshape : httpsHostChars ++ (o ++ '/' :: (r ++ '/' :: q)) =
      (httpsHostChars ++ o ++ ['/']) ++ (r ++ '/' :: q) := by simp
  rcases hsl with ⟨heq, hqnil⟩ | ⟨q2, hq2m, heq⟩
  · rw [hshape, heq]
    have hplain : httpsHostChars ++ o ++ ['/'] ++ r =
        httpsHostChars ++ (o ++ '/' :: r) := by simp
    rw [hplain]
    have hhttps : matchHttpsUrl (httpsHostChars ++ (o ++ '/' :: r)) =
        some (o, r) := by
      unfold matchHttpsUrl
      rw [schemeSplit_https]
      exact matchPath_class_nil hone hoc hrne hrc
    have hfirst : matchFirstForm (httpsHostChars ++ (o ++ '/' :: r)) =
        some (o, r) := by
      unfold matchFirstForm
      rw [hhttps]
    rw [hfirst]
    exact validate_good ho hr hdo hdr
  · rw [hshape, heq]
    have hback : httpsHostChars ++ o ++ ['/'] ++ (r ++ '/' :: q2) =
        httpsHostChars ++ (o ++ '/' :: (r ++ '/' :: q2)) := by simp
    rw [hback]
    have hhttps : matchHttpsUrl (httpsHostChars ++ (o ++ '/' :: (r ++ '/' :: q2))) =
        some (o, r) := by
      unfold matchHttpsUrl
      rw [schemeSplit_https]
      exact matchPath_class_tail hone hoc hrne hrc hq2m
    have hfirst : matchFirstForm
        (httpsHostChars ++ (o ++ '/' :: (r ++ '/' :: q2))) = some (o, r) := by
      unfold matchFirstForm
      rw [hhttps]
    rw [hfirst]
    exact validate_good ho hr hdo hdr

/-! ## Claim C5 -/

/-- C5 (amended): the parser is idempotent through its own output provided
the parsed repo name does not end in `.git` — for every input on which the
parser returns `{owner, name}` with `name` not ending in `.git`, parsing the
normalized bare form `owner/name` returns the same identifier.  (The proviso
is forced: normalization strips one trailing `.git`, so a repo name that
ends in `.git` — reachable via the SSH or extra-path forms — re-parses to a
shorter name.) -/
theorem c5_parse_idempotent (s o r : List Char)
    (h : parseGitHubUrl s = some ⟨o, r⟩)
    (hg : endsWithL r gitSuffixChars = false) :
    parseGitHubUrl (o ++ '/' :: r) = some ⟨o, r⟩ := by
  obtain ⟨ho, hr, hdo, hdr⟩ := parse_some_valid h
  exact parse_bare_of_valid ho hr hdo hdr hg

theorem c5_parse_idempotent_witness :
    parseGitHubUrl ("vuejs".toList ++ '/' :: "vue".toList) =
      some ⟨"vuejs".toList, "vue".toList⟩ :=
  c5_parse_idempotent "git@github.com:vuejs/vue.git".toList "vuejs".toList
    "vue".toList (by decide) (by decide)

/-- C5 as stated is false: `https://github.com/a/b.git/x` parses to the
identifier `{a, b.git}` (the `.git` here is not at the end of the raw
string, so normalization does not touch it), but re-parsing its bare form
`a/b.git` strips the now-trailing `.git` and yields `{a, b}`. -/
theorem c5_claim_counterexample :
    parseGitHubUrl "https://github.com/a/b.git/x".toList =
      some ⟨"a".toList, "b.git".toList⟩ ∧
    parseGitHubUrl ("a".toList ++ '/' :: "b.git".toList) =
      some ⟨"a".toList, "b".toList⟩ ∧
    (some (⟨"a".toList, "b".toList⟩ : RepositoryIdentifier) ≠
      some ⟨"a".toList, "b.git".toList⟩) := by
  decide

/-! ## Claim C6 -/

/-- C6 (amended): for every valid owner/repo pair (nonempty, characters in
`[A-Za-z0-9._-]`, not starting with `.` or `-`) whose repo name does not end
in `.git`, the accepted input shapes with that identical owner/repo — bare,
plain HTTPS, HTTPS with extra path segments, plain SSH, and SSH with the
`.git` suffix — all parse to the same `RepositoryIdentifier`.  (The
`.git`-free proviso is forced: for repo `b.git` the SSH shape with `.git`
yields `{a, b.git}` while the bare shape yields `{a, b}`.) -/
theorem c6_shapes_agree (o r p : List Char)
    (ho : validNameTest o = true) (hr : validNameTest r = true)
    (hdo : startsWithDotOrDash o = false) (hdr : startsWithDotOrDash r = false)
    (hg : endsWithL r gitSuffixChars = false)
    (hp : ∀ c ∈ p, classChar c = true ∨ c = '/') :
    parseGitHubUrl (o ++ '/' :: r) = some ⟨o, r⟩ ∧
    parseGitHubUrl (httpsHostChars ++ (o ++ '/' :: r)) = some ⟨o, r⟩ ∧
    parseGitHubUrl (httpsHostChars ++ (o ++ '/' :: (r ++ '/' :: p))) = some ⟨o, r⟩ ∧
    parseGitHubUrl (sshHostChars ++ (o ++ '/' :: r)) = some ⟨o, r⟩ ∧
    parseGitHubUrl (sshHostChars ++ (o ++ '/' :: (r ++ gitSuffixChars))) =
      some ⟨o, r⟩ :=
  ⟨parse_bare_of_valid ho hr hdo hdr hg,
   parse_https_plain ho hr hdo hdr hg,
   parse_https_path ho hr hdo hdr hg hp,
   parse_ssh_plain ho hr hdo hdr hg,
   parse_ssh_git ho hr hdo hdr hg⟩

theorem c6_shapes_agree_witness :
    parseGitHubUrl "https://github.com/facebook/react/issues/123".toList =
      some ⟨"facebook".toList, "react".toList⟩ ∧
    parseGitHubUrl "git@github.com:vuejs/vue.git".toList =
      some ⟨"vuejs".toList, "vue".toList⟩ := by
  constructor
  · have h := (c6_shapes_agree "facebook".toList "react".toList "issues/123".toList
      (by decide) (by decide) (by decide) (by decide) (by decide) (by decide)).2.2.1
    rw [show "https://github.com/facebook/react/issues/123".toList =
      httpsHostChars ++ ("facebook".toList ++ '/' ::
        ("react".toList ++ '/' :: "issues/123".toList)) from by decide]
    exact h
  · have h := (c6_shapes_agree "vuejs".toList "vue".toList []
      (by decide) (by decide) (by decide) (by decide) (by decide) (by decide)).2.2.2.2
    rw [show "git@github.com:vuejs/vue.git".toList =
      sshHostChars ++ ("vuejs".toList ++ '/' ::
        ("vue".toList ++ gitSuffixChars)) from by decide]
    exact h

/-- C6 as stated is false: for the valid pair owner `a`, repo `b.git`, the
SSH shape with the optional `.git` suffix parses to `{a, b.git}`, while the
bare shape with the identical owner/repo parses to `{a, b}` — the shapes do
not agree. -/
theorem c6_claim_counterexample :
    parseGitHubUrl "git@github.com:a/b.git.git".toList =
      some ⟨"a".toList, "b.git".toList⟩ ∧
    parseGitHubUrl "a/b.git".toList = some ⟨"a".toList, "b".toList⟩ ∧
    (some (⟨"a".toList, "b.git".toList⟩ : RepositoryIdentifier) ≠
      some ⟨"a".toList, "b".toList⟩) := by
  decide

/-! ## Claim C7 -/

/-- C7: the parser returns null for every input whose normalized form
contains no `/`, and for every input whose captured owner or repo is empty,
contains a character outside the class, or begins with `.` or `-`. -/
theorem c7_parser_rejections (s : List Char) :
    ('/' ∉ normalizeUrl s → parseGitHubUrl s = none) ∧
    (∀ o r, matchFirstForm (normalizeUrl s) = some (o, r) →
      (o = [] ∨ r = [] ∨ (∃ c ∈ o, classChar c = false) ∨
        (∃ c ∈ r, classChar c = false) ∨
        startsWithDotOrDash o = true ∨ startsWithDotOrDash r = true) →
      parseGitHubUrl s = none) := by
  constructor
  · intro h
    unfold parseGitHubUrl
    cases hm : matchFirstForm (normalizeUrl s) with
    | none => rfl
    | some pr => exact absurd (matchFirstForm_mem hm) h
  · intro o r hm hbad
    unfold parseGitHubUrl
    rw [hm]
    show validateOwnerRepo o r = none
    unfold validateOwnerRepo
    split_ifs with h1 h2
    · rfl
    · rfl
    · exfalso
      rw [Bool.not_eq_true] at h1 h2
      simp only [Bool.or_eq_false_iff, Bool.not_eq_false'] at h1 h2
      obtain ⟨hvo, hvr⟩ := h1
      obtain ⟨hso, hsr⟩ := h2
      obtain ⟨hone, hoc⟩ := validNameTest_parts hvo
      obtain ⟨hrne, hrc⟩ := validNameTest_parts hvr
      rcases hbad with h | h | ⟨c, hc, hcc⟩ | ⟨c, hc, hcc⟩ | h | h
      · exact hone h
      · exact hrne h
      · rw [hoc c hc] at hcc; cases hcc
      · rw [hrc c hc] at hcc; cases hcc
      · rw [h] at hso; cases hso
      · rw [h] at hsr; cases hsr

theorem c7_parser_rejections_witness :
    parseGitHubUrl "justsometext".toList = none ∧
    parseGitHubUrl "a/-b".toList = none :=
  ⟨(c7_parser_rejections "justsometext".toList).1 (by decide),
   (c7_parser_rejections "a/-b".toList).2 "a".toList "-b".toList (by decide)
     (Or.inr (Or.inr (Or.inr (Or.inr (Or.inr (by decide))))))⟩

/-! ## Claim C8 -/

/-- C8: the parser is total on character sequences — every input produces
either an identifier or null.  In this embedding every normalization and
matching operation is a total function, which is exactly the code's
guarantee: the `try/catch` around the body converts any exception into
null, so no exception ever reaches the caller. -/
theorem c8_parse_total (s : List Char) :
    (∃ id, parseGitHubUrl s = some id) ∨ parseGitHubUrl s = none := by
  cases h : parseGitHubUrl s with
  | none => exact Or.inr rfl
  | some id => exact Or.inl ⟨id, rfl⟩
